import Mathlib

/-!
RAMCloud: `Log::Position`, the reference encoding, the log round trip and the
command line of the benchmark client.

A shallow embedding of `src/Log.h` and `src/Bench.cc`. `Log.h` declares the log's
operations without defining them; their model follows the specification and is
marked as such, definition by definition.

Machine integers are natural numbers (or integers for `int`), with an explicit
reduction modulo `2 ^ w` wherever the C++ code narrows or wraps a value.
C strings are lists of characters.
-/

namespace RAMCloud

/-! ## `std::pair<uint64_t, uint32_t>` and `Log::Position` (Log.h) -/

/-- The member `pos` of `Log::Position`: a `std::pair<uint64_t, uint32_t>`. -/
structure Pair where
  first : Nat
  second : Nat
  deriving DecidableEq

namespace Pair

/-- The operator `operator==` of `std::pair`: both components are equal. -/
def eq (x y : Pair) : Bool :=
  x.first == y.first && x.second == y.second

/-- The operator `operator<` of `std::pair`:
`x.first < y.first || (!(y.first < x.first) && x.second < y.second)`. -/
def lt (x y : Pair) : Bool :=
  decide (x.first < y.first) || (!decide (y.first < x.first) && decide (x.second < y.second))

/-- The operator `operator!=` of `std::pair`: `!(x == y)`. -/
def ne (x y : Pair) : Bool := !(eq x y)

/-- The operator `operator>` of `std::pair`: `y < x`. -/
def gt (x y : Pair) : Bool := lt y x

/-- The operator `operator<=` of `std::pair`: `!(y < x)`. -/
def le (x y : Pair) : Bool := !(lt y x)

/-- The operator `operator>=` of `std::pair`: `!(x < y)`. -/
def ge (x y : Pair) : Bool := !(lt x y)

end Pair

/-- Modelled from the spec: `downCast<uint32_t>` is declared in `Common.h`, which
is not part of the sources at hand. A Position's offset is a `u32`; the cast
narrows a 64-bit value to 32 bits, keeping a value that fits unchanged. -/
def downCast32 (x : Nat) : Nat := x % 2 ^ 32

/-- The class `Log::Position`: a (segment id, segment offset) pair. -/
structure Position where
  pos : Pair
  deriving DecidableEq

namespace Position

/-- The constructor `Position()`: the default constructor, `pos(0, 0)`. -/
def default : Position := ⟨⟨0, 0⟩⟩

/-- The constructor `Position(uint64_t segmentId, uint64_t segmentOffset)`:
`pos(segmentId, downCast<uint32_t>(segmentOffset))`. -/
def make (segmentId segmentOffset : Nat) : Position :=
  ⟨⟨segmentId, downCast32 segmentOffset⟩⟩

/-- The operator `operator==`: `pos == other.pos`. -/
def eq (a other : Position) : Bool := Pair.eq a.pos other.pos

/-- The operator `operator!=`: `pos != other.pos`. -/
def ne (a other : Position) : Bool := Pair.ne a.pos other.pos

/-- The operator `operator<`: `pos < other.pos`. -/
def lt (a other : Position) : Bool := Pair.lt a.pos other.pos

/-- The operator `operator<=`: `pos <= other.pos`. -/
def le (a other : Position) : Bool := Pair.le a.pos other.pos

/-- The operator `operator>`: `pos > other.pos`. -/
def gt (a other : Position) : Bool := Pair.gt a.pos other.pos

/-- The operator `operator>=`: `pos >= other.pos`. -/
def ge (a other : Position) : Bool := Pair.ge a.pos other.pos

/-- The function `getSegmentId()`: `pos.first`. -/
def getSegmentId (a : Position) : Nat := a.pos.first

/-- The function `getSegmentOffset()`: `pos.second`. -/
def getSegmentOffset (a : Position) : Nat := a.pos.second

/-- The pair (segment id, segment offset) of a position, in the lexicographic
order of `ℕ ×ₗ ℕ`: the order the specification names. -/
def key (a : Position) : Lex (Nat × Nat) :=
  toLex (a.getSegmentId, a.getSegmentOffset)

end Position

/-! ## The reference encoding and the log (declared in Log.h, defined in Log.cc) -/

/-- An entry type tag (`LogEntryType`). -/
abbrev LogEntryType := Nat

/-- A `HashTable::Reference`: an opaque fixed-width handle, here its integer value. -/
abbrev Reference := Nat

/-- Modelled from the spec: the bit layout of a reference, which `Log.cc` (absent
from the sources) fixes. The spec leaves the split to the implementer: "a
fixed-width packing (bit layout chosen by the implementer based on maximum
concurrent segments and maximum segment size)". -/
structure RefLayout where
  slotBits : Nat
  offsetBits : Nat
  deriving DecidableEq

/-- Modelled from the spec: the entry stored in a segment, "a `(type, length,
bytes)` tuple written once and never mutated", at the offset it was written to,
with the mark `free` leaves on it. `LogSegment.h` is absent from the sources. -/
structure StoredEntry where
  offset : Nat
  type : LogEntryType
  length : Nat
  bytes : List Nat
  freed : Bool
  deriving DecidableEq

/-- Modelled from the spec: `LogSegment` (`LogSegment.h` is absent from the
sources), "`(id, capacity, writeCursor, sealed:boolean)`", with the entries
written to it, newest first. -/
structure LogSegment where
  id : Nat
  capacity : Nat
  writeCursor : Nat
  sealed : Bool
  entries : List StoredEntry
  deriving DecidableEq

namespace LogSegment

/-- Modelled from the spec: appending to a segment (`LogSegment.h` is absent). The
entry is written at the write cursor when the segment is not sealed and the
payload fits in the remaining space; the cursor advances by the payload's length.
Returns the new segment and the offset of the entry. -/
def append (s : LogSegment) (type : LogEntryType) (bytes : List Nat) :
    Option (LogSegment × Nat) :=
  if s.sealed = false ∧ s.writeCursor + bytes.length ≤ s.capacity then
    some ({ s with
              writeCursor := s.writeCursor + bytes.length
              entries := ⟨s.writeCursor, type, bytes.length, bytes, false⟩ :: s.entries },
          s.writeCursor)
  else
    none

/-- Modelled from the spec: the entry a segment holds at an offset
(`LogSegment.h` is absent), the most recently written one first. -/
def entryAt (s : LogSegment) (offset : Nat) : Option StoredEntry :=
  s.entries.find? (fun e => e.offset == offset)

/-- Modelled from the spec: mark the entry at an offset dead (`LogSegment.h` is
absent); the bytes stay where they are until the cleaner reclaims them. -/
def markFreed (s : LogSegment) (offset : Nat) : LogSegment :=
  { s with
      entries :=
        s.entries.map (fun e => if e.offset == offset then { e with freed := true } else e) }

end LogSegment

/-- Modelled from the spec: `SegmentManager` (`SegmentManager.h` is absent from
the sources): the slot table, "mapping from slot id to the currently-backing
`LogSegment`", the capacity of the segments it allocates and the size of its
pool. A slot whose segment was reclaimed holds `none`. -/
structure SegmentManager where
  segmentCapacity : Nat
  maxSegments : Nat
  nextSegmentId : Nat
  slots : List (Option LogSegment)
  deriving DecidableEq

/-- Modelled from the spec: the search of `SegmentManager` (`SegmentManager.h` is
absent) for a slot to back; the first slot of the table that holds no segment,
counting from `i`. -/
def firstFreeSlot : List (Option LogSegment) → Nat → Option Nat
  | [], _ => none
  | none :: _, i => some i
  | some _ :: rest, i => firstFreeSlot rest (i + 1)

namespace SegmentManager

/-- Modelled from the spec: "`getSegment(slot) -> current backing segment or
none`" (`SegmentManager.h` is absent). -/
def getSegment (sm : SegmentManager) (slot : Nat) : Option LogSegment :=
  (sm.slots[slot]?).join

/-- Modelled from the spec: replace the segment that backs a slot
(`SegmentManager.h` is absent); the slot id does not change. -/
def setSegment (sm : SegmentManager) (slot : Nat) (seg : LogSegment) : SegmentManager :=
  { sm with slots := sm.slots.set slot (some seg) }

/-- Modelled from the spec: "`open() -> new sealed-capable head segment`"
(`SegmentManager.h` is absent): a fresh, empty, unsealed segment of the
manager's capacity in a slot that holds no segment, or a new slot while fewer
than `maxSegments` exist; `none` when the pool is exhausted. Returns the slot. -/
def openSegment (sm : SegmentManager) : Option (SegmentManager × Nat) :=
  let seg : LogSegment := ⟨sm.nextSegmentId, sm.segmentCapacity, 0, false, []⟩
  match firstFreeSlot sm.slots 0 with
  | some slot =>
    some ({ sm with nextSegmentId := sm.nextSegmentId + 1
                    slots := sm.slots.set slot (some seg) }, slot)
  | none =>
    if sm.slots.length < sm.maxSegments then
      some ({ sm with nextSegmentId := sm.nextSegmentId + 1
                      slots := sm.slots ++ [some seg] }, sm.slots.length)
    else
      none

/-- Modelled from the spec: seal the segment in a slot (`SegmentManager.h` is
absent): "once `sealed`, no further appends occur to it". -/
def sealSlot (sm : SegmentManager) (slot : Nat) : SegmentManager :=
  match sm.getSegment slot with
  | some seg => sm.setSegment slot { seg with sealed := true }
  | none => sm

/-- The slot table suits a reference layout: every slot and every offset of a
segment fits in its field. -/
def Fits (sm : SegmentManager) (layout : RefLayout) : Prop :=
  sm.slots.length ≤ 2 ^ layout.slotBits ∧
  sm.maxSegments ≤ 2 ^ layout.slotBits ∧
  sm.segmentCapacity < 2 ^ layout.offsetBits ∧
  ∀ seg, some seg ∈ sm.slots → seg.capacity < 2 ^ layout.offsetBits

end SegmentManager

/-- Modelled from the spec: `ReplicaManager` (`ReplicaManager.h` is absent from
the sources): the byte ranges (segment id, offset, length) handed to it that are
not yet acknowledged, and those that are durable. -/
structure ReplicaManager where
  pending : List (Nat × Nat × Nat)
  durable : List (Nat × Nat × Nat)
  deriving DecidableEq

namespace ReplicaManager

/-- Modelled from the spec: "`enqueue(segment, byteRange)`". -/
def enqueue (rm : ReplicaManager) (range : Nat × Nat × Nat) : ReplicaManager :=
  { rm with pending := rm.pending ++ [range] }

/-- Modelled from the spec: "`sync()` blocks until all currently enqueued ranges
are acknowledged". -/
def sync (rm : ReplicaManager) : ReplicaManager :=
  { pending := [], durable := rm.durable ++ rm.pending }

end ReplicaManager

/-- Modelled from the spec: the state of a `Log` (the members `segmentManager`,
`replicaManager` and `head` of Log.h, whose types are declared in headers absent
from the sources), and the layout of its references. `head` is the slot of the
head segment. -/
structure Log where
  layout : RefLayout
  segmentManager : SegmentManager
  replicaManager : ReplicaManager
  head : Nat
  deriving DecidableEq

namespace Log

/-- Modelled from the spec: `Log::buildReference(slot, offset)`, defined in
`Log.cc` (absent from the sources). "Built from `(slot, offset)` via a
fixed-width packing": the slot above the `offsetBits` low bits that hold the
offset, in a handle of `slotBits + offsetBits` bits. -/
def buildReference (log : Log) (slot offset : Nat) : Reference :=
  ((slot <<< log.layout.offsetBits) ||| offset) %
    2 ^ (log.layout.slotBits + log.layout.offsetBits)

/-- Modelled from the spec: `Log::referenceToSlot(reference)`, defined in
`Log.cc` (absent from the sources): the slot field of the packing. -/
def referenceToSlot (log : Log) (reference : Reference) : Nat :=
  (reference >>> log.layout.offsetBits) % 2 ^ log.layout.slotBits

/-- Modelled from the spec: `Log::referenceToOffset(reference)`, defined in
`Log.cc` (absent from the sources): the offset field of the packing. -/
def referenceToOffset (log : Log) (reference : Reference) : Nat :=
  reference &&& (2 ^ log.layout.offsetBits - 1)

/-- Modelled from the spec: one attempt to write an entry into the head segment
(the state `AttemptWrite(head)` of the spec's append path; `Log.cc` is absent): `none` when the head lacks
room. The written range is handed to the replica manager, and `sync` waits for
its acknowledgement. -/
def attemptWrite (log : Log) (type : LogEntryType) (bytes : List Nat) (sync : Bool) :
    Option (Log × Reference) :=
  match log.segmentManager.getSegment log.head with
  | none => none
  | some seg =>
    match seg.append type bytes with
    | none => none
    | some (seg', offset) =>
      let rm := log.replicaManager.enqueue (seg.id, offset, bytes.length)
      some ({ log with
                segmentManager := log.segmentManager.setSegment log.head seg'
                replicaManager := if sync then rm.sync else rm },
            log.buildReference log.head offset)

/-- Modelled from the spec: `Log::append(type, data, length, sync,
outReference)`, defined in `Log.cc` (absent from the sources). "Appends one
entry to the head segment. If the head lacks room, a new head is allocated via
`SegmentManager` (old head sealed and queued for replication) and the append
retried once on the new head; if allocation itself fails (exhausted segment
pool), returns `false` and writes no reference." The result is the new state and
the reference, `none` standing for `false`. -/
def append (log : Log) (type : LogEntryType) (bytes : List Nat) (sync : Bool) :
    Log × Option Reference :=
  match log.attemptWrite type bytes sync with
  | some (log', reference) => (log', some reference)
  | none =>
    match (log.segmentManager.sealSlot log.head).openSegment with
    | none => (log, none)
    | some (sm, slot) =>
      let rolled : Log := { log with segmentManager := sm, head := slot }
      match rolled.attemptWrite type bytes sync with
      | some (log', reference) => (log', some reference)
      | none => (rolled, none)

/-- Modelled from the spec: `Log::getEntry(reference, outBuffer)`, defined in
`Log.cc` (absent from the sources). "Copies the entry's bytes into the
caller-provided buffer and returns its type. Fails if the reference is unknown,
out of range, or points at a segment no longer resident"; a freed reference is
an invalid-argument error as well. The result is the type and the bytes. -/
def getEntry (log : Log) (reference : Reference) : Option (LogEntryType × List Nat) :=
  match log.segmentManager.getSegment (log.referenceToSlot reference) with
  | none => none
  | some seg =>
    match seg.entryAt (log.referenceToOffset reference) with
    | none => none
    | some e => if e.freed then none else some (e.type, e.bytes)

/-- Modelled from the spec: `Log::free(reference)`, defined in `Log.cc` (absent
from the sources): "marks an entry logically dead"; an unknown or already freed
reference is an error (`none`). -/
def free (log : Log) (reference : Reference) : Option Log :=
  match log.getEntry reference with
  | none => none
  | some _ =>
    match log.segmentManager.getSegment (log.referenceToSlot reference) with
    | none => none
    | some seg =>
      let seg' := seg.markFreed (log.referenceToOffset reference)
      some { log with
               segmentManager :=
                 log.segmentManager.setSegment (log.referenceToSlot reference) seg' }

/-- Modelled from the spec: a fresh log (the constructor of `Log` is defined in
`Log.cc`, absent from the sources): one empty head segment in slot 0. -/
def init (layout : RefLayout) (segmentCapacity maxSegments : Nat) : Log :=
  { layout := layout
    segmentManager :=
      { segmentCapacity := segmentCapacity
        maxSegments := maxSegments
        nextSegmentId := 1
        slots := [some ⟨0, segmentCapacity, 0, false, []⟩] }
    replicaManager := ⟨[], []⟩
    head := 0 }

/-- The layout of the references suits the log: every slot of the slot table and
every offset of a segment fits in its field ("bit layout chosen by the
implementer based on maximum concurrent segments and maximum segment size"). -/
def LayoutFits (log : Log) : Prop :=
  log.segmentManager.Fits log.layout

end Log

/-! ## The benchmark client (Bench.cc) -/

namespace Bench

/-- A C string: its characters, without the terminating NUL. -/
abbrev CString := List Char

/-- The global variables of Bench.cc that `cmdline` sets. The `uint64_t`
globals are naturals below `2 ^ 64`, `port` and `cpu` are `int`s. -/
structure Globals where
  multirow : Nat
  randomReads : Nat
  pmcInsteadOfTSC : Bool
  count : Nat
  size : Nat
  address : CString
  port : Int
  cpu : Int
  deriving DecidableEq

/-- The globals at program start: static storage is zero-initialised, and
`int cpu = -1`. -/
def Globals.initial : Globals :=
  { multirow := 0, randomReads := 0, pmcInsteadOfTSC := false, count := 0, size := 0,
    address := [], port := 0, cpu := -1 }

/-! ### The C library functions `cmdline` calls -/

/-- The C library's `isspace` in the C locale: space and the controls 9 to 13. -/
def isspace (c : Char) : Bool :=
  c.toNat == 32 || (decide (9 ≤ c.toNat) && decide (c.toNat ≤ 13))

/-- The value of the leading decimal digits of a string, after `acc`. -/
def digitsValue : CString → Nat → Nat
  | [], acc => acc
  | c :: cs, acc =>
    if 48 ≤ c.toNat ∧ c.toNat ≤ 57 then digitsValue cs (acc * 10 + (c.toNat - 48)) else acc

/-- The C library's `strtol(nptr, NULL, 10)`: leading white space, an optional
sign, then decimal digits; a value out of the range of `long` saturates. -/
def strtol (nptr : CString) : Int :=
  match nptr.dropWhile isspace with
  | '-' :: rest => max (-(digitsValue rest 0 : Int)) (-(2 ^ 63))
  | '+' :: rest => min (digitsValue rest 0 : Int) (2 ^ 63 - 1)
  | rest => min (digitsValue rest 0 : Int) (2 ^ 63 - 1)

/-- The C library's `atol`: `strtol(nptr, NULL, 10)`. -/
def atol (nptr : CString) : Int := strtol nptr

/-- The C library's `atoi`: `(int) strtol(nptr, NULL, 10)`, the conversion to a
32-bit `int` wrapping. -/
def atoi (nptr : CString) : Int :=
  (strtol nptr + 2 ^ 31) % 2 ^ 32 - 2 ^ 31

/-- The conversion of a `long` to `uint64_t`: reduction modulo `2 ^ 64`. -/
def toUInt64 (v : Int) : Nat := (v % 2 ^ 64).toNat

/-- The copy `strncpy(address, src, sizeof(address)); address[sizeof(address) - 1] = 0`
with `char address[50]`: the first 49 characters of the source. -/
def copyAddress (src : CString) : CString := src.take 49

/-- An entry of a `struct option` table: name, whether `has_arg` is
`required_argument` (otherwise `no_argument`), and the value `getopt_long`
returns for it (`flag` is NULL throughout). -/
structure LongOption where
  name : CString
  required_argument : Bool
  val : Char
  deriving DecidableEq

/-- What one call of `getopt_long` returns: the option character (`'?'` for an
error) and `optarg` (empty when the option takes no argument). -/
structure GetoptResult where
  c : Char
  optarg : CString
  deriving DecidableEq

/-- Whether the short option `c` is in the option string, and if so whether a
colon follows it (it takes an argument). -/
def shortOption : CString → Char → Option Bool
  | [], _ => none
  | o :: rest, c =>
    if o = c ∧ c ≠ ':' then some (rest.head? == some ':') else shortOption rest c

/-- The long option a name selects, as `getopt_long` does: an exact match, else
the only option the name abbreviates; `none` when nothing matches or the
abbreviation is ambiguous (the candidates differ in `has_arg` or `val`). -/
def longOption (table : List LongOption) (name : CString) : Option LongOption :=
  match table.find? (fun o => o.name == name) with
  | some o => some o
  | none =>
    match table.filter (fun o => name.isPrefixOf o.name) with
    | [] => none
    | o :: others =>
      if others.all (fun o' => o'.required_argument == o.required_argument && o'.val == o.val)
      then some o else none

/-- One long option `--body`, `next` being the argument after it: the result
and whether `next` was consumed as the option's argument. -/
def getoptLong (table : List LongOption) (body : CString) (next : Option CString) :
    GetoptResult × Bool :=
  let name := body.takeWhile (fun c => c != '=')
  let value := (body.dropWhile (fun c => c != '=')).tail?
  match longOption table name with
  | none => (⟨'?', []⟩, false)
  | some o =>
    if o.required_argument then
      match value, next with
      | some v, _ => (⟨o.val, v⟩, false)
      | none, some a => (⟨o.val, a⟩, true)
      | none, none => (⟨'?', []⟩, false)
    else
      match value with
      | some _ => (⟨'?', []⟩, false)
      | none => (⟨o.val, []⟩, false)

/-- The short options clustered in one argument `-abc`, `next` being the
argument after it: the results and whether `next` was consumed. An option that
takes an argument uses the rest of the cluster, or `next` when nothing is left. -/
def getoptShort (optstring : CString) : CString → Option CString → List GetoptResult × Bool
  | [], _ => ([], false)
  | c :: cs, next =>
    match shortOption optstring c with
    | none =>
      let r := getoptShort optstring cs next
      (⟨'?', []⟩ :: r.1, r.2)
    | some false =>
      let r := getoptShort optstring cs next
      (⟨c, []⟩ :: r.1, r.2)
    | some true =>
      match cs, next with
      | _ :: _, _ => ([⟨c, cs⟩], false)
      | [], some a => ([⟨c, a⟩], true)
      | [], none => ([⟨'?', []⟩], false)

/-- The successive results of `getopt_long(argc, argv, optstring, long_options,
&i)` over the arguments after `argv[0]`, until it returns -1: GNU `getopt_long`
skips the arguments that are not options and stops at `--`. -/
def getoptAll (optstring : CString) (table : List LongOption) :
    List CString → List GetoptResult
  | [] => []
  | arg :: rest =>
    match arg with
    | ['-', '-'] => []
    | '-' :: '-' :: body =>
      let r := getoptLong table body rest.head?
      if r.2 then
        match rest with
        | [] => [r.1]
        | _ :: rest' => r.1 :: getoptAll optstring table rest'
      else
        r.1 :: getoptAll optstring table rest
    | '-' :: c :: cs =>
      let r := getoptShort optstring (c :: cs) rest.head?
      if r.2 then
        match rest with
        | [] => r.1
        | _ :: rest' => r.1 ++ getoptAll optstring table rest'
      else
        r.1 ++ getoptAll optstring table rest
    | _ => getoptAll optstring table rest

/-! ### `cmdline` -/

/-- The table `long_options` of `cmdline`, entry by entry. -/
def long_options : List LongOption :=
  [ ⟨"number".toList, true, 'n'⟩,
    ⟨"size".toList, true, 's'⟩,
    ⟨"multirow".toList, false, 'M'⟩,
    ⟨"random".toList, false, 'R'⟩,
    ⟨"performance".toList, false, 'P'⟩,
    ⟨"address".toList, true, 'a'⟩,
    ⟨"port".toList, true, 'p'⟩,
    ⟨"cpu".toList, true, 'a'⟩ ]

/-- The option string `cmdline` passes to `getopt_long`. -/
def optstring : CString := "n:s:MRPa:p:c:".toList

/-- The `switch (c)` of `cmdline` for one result of `getopt_long`; `none` is the
`default` case, `usage(argv[0])`, which exits. -/
def cmdlineCase (g : Globals) (r : GetoptResult) : Option Globals :=
  match r.c with
  | 'n' => some { g with count := toUInt64 (atol r.optarg) }
  | 's' => some { g with size := toUInt64 (atol r.optarg) }
  | 'M' => some { g with multirow := 1 }
  | 'R' => some { g with multirow := 1, randomReads := 1 }
  | 'P' => some { g with pmcInsteadOfTSC := true }
  | 'a' => some { g with address := copyAddress r.optarg }
  | 'p' => some { g with port := atoi r.optarg }
  | 'c' => some { g with cpu := atoi r.optarg }
  | _ => none

/-- The `while` loop of `cmdline` over the results of `getopt_long`. -/
def cmdlineLoop : Globals → List GetoptResult → Option Globals
  | g, [] => some g
  | g, r :: rest =>
    match cmdlineCase g r with
    | none => none
    | some g' => cmdlineLoop g' rest

/-- The function `cmdline(argc, argv)`, run on the globals `g`: the defaults, then the option
loop. `SVRPORT` and `SVRADDR` are macros of a header absent from the sources.
`none` when `usage` exits the program. -/
def cmdline (SVRPORT : Int) (SVRADDR : CString) (g : Globals) (argv : List CString) :
    Option Globals :=
  cmdlineLoop
    { g with count := 10000, size := 100, multirow := 0, port := SVRPORT,
             address := copyAddress SVRADDR }
    (getoptAll optstring long_options (argv.drop 1))

/-! ### The write and read phases -/

/-- One call `rc_write(&client, table, key, &write_any, NULL, &buf[0], len)`:
the key, the buffer and the length passed. -/
structure WriteCall where
  key : Nat
  buf : List Nat
  len : Nat
  deriving DecidableEq

/-- One call `rc_read(&client, table, key, &read_any, NULL, &buf[0], &bufLen)`:
the key passed. -/
structure ReadCall where
  key : Nat
  deriving DecidableEq

/-- The outcome of a phase: the calls it issued in order, whether the program
ended in it (`exit(-1)` after a failed call, or the process killed for running
off its stack), and the server counter it returns otherwise. -/
structure Phase (α : Type) where
  calls : List α
  exited : Bool
  serverCounter : Nat

/-- The bytes of the buffer after `memset(&buf[0], 0xFF, size); buf[size - 1] = 0;`.
The index `size - 1` is computed in `uint64_t`; for `size = 0` it is `2 ^ 64 - 1`
and the store falls outside the (empty) array, which this list does not record. -/
def bufContents (size : Nat) : List Nat :=
  (List.replicate size 0xFF).set ((size + 2 ^ 64 - 1) % 2 ^ 64) 0

/-- The buffer of `writeOne`, `writeMany` and `readMany`: the stack array
`char buf[size]`, then `memset` and the store of the final 0. `stack` is the
number of bytes the stack has left for the array; `size` is not checked against
it, and a process that fills an array running off its stack is killed: `none`. -/
def makeBuf (stack size : Nat) : Option (List Nat) :=
  if size ≤ stack then some (bufContents size) else none

/-- The function `writeOne()`: the buffer, then one `rc_write` to key 0; a
non-zero result exits. `rc_write` gives the result of the call with a given
number, `perf` the value `rc_read_perf_counter` then returns. -/
def writeOne (stack : Nat) (g : Globals) (rc_write : Nat → Int) (perf : Nat → Nat) :
    Phase WriteCall :=
  match makeBuf stack g.size with
  | none => ⟨[], true, 0⟩
  | some buf =>
    let call : WriteCall := ⟨0, buf, g.size⟩
    if rc_write 0 ≠ 0 then ⟨[call], true, 0⟩ else ⟨[call], false, perf 0⟩

/-- The loop of `writeMany`, `for (uint64_t i = 0; i < count; i++)`, with
`remaining = count - i` iterations to go, each writing the buffer `buf`. -/
def writeManyLoop (buf : List Nat) (g : Globals) (rc_write : Nat → Int) (perf : Nat → Nat) :
    Nat → Nat → Nat → Phase WriteCall
  | 0, _, serverCounter => ⟨[], false, serverCounter⟩
  | remaining + 1, i, serverCounter =>
    let call : WriteCall := ⟨i, buf, g.size⟩
    if rc_write i ≠ 0 then
      ⟨[call], true, serverCounter⟩
    else
      let r := writeManyLoop buf g rc_write perf remaining (i + 1)
        ((serverCounter + perf i) % 2 ^ 64)
      ⟨call :: r.calls, r.exited, r.serverCounter⟩

/-- The function `writeMany()`: the buffer, `serverCounter = 0`, then the loop
from `i = 0`. -/
def writeMany (stack : Nat) (g : Globals) (rc_write : Nat → Int) (perf : Nat → Nat) :
    Phase WriteCall :=
  match makeBuf stack g.size with
  | none => ⟨[], true, 0⟩
  | some buf => writeManyLoop buf g rc_write perf g.count 0 0

/-- The loop of `readMany`, with `remaining = count - i` iterations to go:
`key = randomReads ? rand() % count : i`, then `rc_read` of `multirow ? key : 0`.
`rand` gives the value of the call of `rand()` in iteration `i`. -/
def readManyLoop (g : Globals) (rc_read : Nat → Int) (perf : Nat → Nat) (rand : Nat → Nat) :
    Nat → Nat → Nat → Phase ReadCall
  | 0, _, serverCounter => ⟨[], false, serverCounter⟩
  | remaining + 1, i, serverCounter =>
    let key := if g.randomReads ≠ 0 then rand i % g.count else i
    let call : ReadCall := ⟨if g.multirow ≠ 0 then key else 0⟩
    if rc_read i ≠ 0 then
      ⟨[call], true, serverCounter⟩
    else
      let r := readManyLoop g rc_read perf rand remaining (i + 1)
        ((serverCounter + perf i) % 2 ^ 64)
      ⟨call :: r.calls, r.exited, r.serverCounter⟩

/-- The function `readMany()`: the buffer, `serverCounter = 0`, then the loop
from `i = 0`. -/
def readMany (stack : Nat) (g : Globals) (rc_read : Nat → Int) (perf : Nat → Nat)
    (rand : Nat → Nat) : Phase ReadCall :=
  match makeBuf stack g.size with
  | none => ⟨[], true, 0⟩
  | some _ => readManyLoop g rc_read perf rand g.count 0 0

/-- The write phase of `main`: `if (multirow) BENCH(writeMany); else
BENCH(writeOne);`. -/
def writePhase (stack : Nat) (g : Globals) (rc_write : Nat → Int) (perf : Nat → Nat) :
    Phase WriteCall :=
  if g.multirow ≠ 0 then writeMany stack g rc_write perf else writeOne stack g rc_write perf

/-- The calls a run of the program issues. -/
structure Trace where
  writes : List WriteCall
  reads : List ReadCall
  deriving DecidableEq

/-- The function `main(argc, argv)`: `cmdline`, `setup()`, the write phase, then
`BENCH(readMany)`. `stack` is the stack space left for the buffer of a phase;
`setup` tells whether `setup()` returns for the globals (it dies when the CPU
cannot be pinned); a phase that exits ends the program. -/
def main (SVRPORT : Int) (SVRADDR : CString) (argv : List CString) (stack : Nat)
    (setup : Globals → Bool) (rc_write rc_read : Nat → Int) (perf : Nat → Nat)
    (rand : Nat → Nat) : Trace :=
  match cmdline SVRPORT SVRADDR Globals.initial argv with
  | none => ⟨[], []⟩
  | some g =>
    if setup g then
      let w := writePhase stack g rc_write perf
      if w.exited then ⟨w.calls, []⟩
      else ⟨w.calls, (readMany stack g rc_read perf rand).calls⟩
    else ⟨[], []⟩

end Bench

/-! ## Theorems: `Log::Position` -/

theorem Position.lt_iff (a b : Position) :
    a.lt b = true ↔
      a.getSegmentId < b.getSegmentId ∨
        (a.getSegmentId = b.getSegmentId ∧ a.getSegmentOffset < b.getSegmentOffset) := by
  simp only [Position.lt, Pair.lt, Position.getSegmentId, Position.getSegmentOffset,
    Bool.or_eq_true, Bool.and_eq_true, Bool.not_eq_true', decide_eq_true_eq,
    decide_eq_false_iff_not]
  omega

theorem Position.eq_iff (a b : Position) :
    a.eq b = true ↔
      a.getSegmentId = b.getSegmentId ∧ a.getSegmentOffset = b.getSegmentOffset := by
  simp [Position.eq, Pair.eq, Position.getSegmentId, Position.getSegmentOffset]

theorem Position.le_iff (a b : Position) :
    a.le b = true ↔
      a.getSegmentId < b.getSegmentId ∨
        (a.getSegmentId = b.getSegmentId ∧ a.getSegmentOffset ≤ b.getSegmentOffset) := by
  simp only [Position.le, Pair.le, Pair.lt, Position.getSegmentId, Position.getSegmentOffset,
    Bool.not_eq_true', Bool.or_eq_false_iff, Bool.and_eq_false_imp, Bool.not_eq_true',
    decide_eq_true_eq, decide_eq_false_iff_not]
  omega

theorem Position.key_lt_iff (a b : Position) :
    a.key < b.key ↔
      a.getSegmentId < b.getSegmentId ∨
        (a.getSegmentId = b.getSegmentId ∧ a.getSegmentOffset < b.getSegmentOffset) := by
  simp [Position.key, Prod.Lex.lt_iff]

theorem Position.key_le_iff (a b : Position) :
    a.key ≤ b.key ↔
      a.getSegmentId < b.getSegmentId ∨
        (a.getSegmentId = b.getSegmentId ∧ a.getSegmentOffset ≤ b.getSegmentOffset) := by
  simp [Position.key, Prod.Lex.le_iff]

theorem Position.key_eq_iff (a b : Position) :
    a.key = b.key ↔
      a.getSegmentId = b.getSegmentId ∧ a.getSegmentOffset = b.getSegmentOffset := by
  simp [Position.key, Prod.ext_iff]

/-- C1: each of the six comparison operators of `Log::Position` returns the
result of comparing the pairs (segment id, segment offset) lexicographically,
segment id first; in particular `a < b` holds iff `a`'s segment id is smaller,
or the ids are equal and `a`'s offset is smaller. -/
theorem Position.comparisons_lexicographic (a b : Position) :
    (a.eq b = true ↔ a.key = b.key) ∧
    (a.ne b = true ↔ a.key ≠ b.key) ∧
    (a.lt b = true ↔ a.key < b.key) ∧
    (a.le b = true ↔ a.key ≤ b.key) ∧
    (a.gt b = true ↔ a.key > b.key) ∧
    (a.ge b = true ↔ a.key ≥ b.key) ∧
    (a.lt b = true ↔
      a.getSegmentId < b.getSegmentId ∨
        (a.getSegmentId = b.getSegmentId ∧ a.getSegmentOffset < b.getSegmentOffset)) := by
  refine ⟨?_, ?_, ?_, ?_, ?_, ?_, Position.lt_iff a b⟩
  · rw [Position.eq_iff, Position.key_eq_iff]
  · have h := Position.eq_iff a b
    rw [Ne, Position.key_eq_iff, ← h]
    simp [Position.ne, Pair.ne, Position.eq]
  · rw [Position.lt_iff, Position.key_lt_iff]
  · rw [Position.le_iff, Position.key_le_iff]
  · have h := Position.lt_iff b a
    rw [gt_iff_lt, Position.key_lt_iff, ← h]
    simp [Position.gt, Pair.gt, Position.lt]
  · have h := Position.le_iff b a
    rw [ge_iff_le, Position.key_le_iff, ← h]
    simp [Position.ge, Pair.ge, Position.le, Pair.le]

/-- C2: `<=` on `Log::Position` is a total order with respect to `==`: it is
reflexive, antisymmetric, transitive and total. -/
theorem Position.le_total_order (a b c : Position) :
    a.le a = true ∧
    (a.le b = true → b.le a = true → a.eq b = true) ∧
    (a.le b = true → b.le c = true → a.le c = true) ∧
    (a.le b = true ∨ b.le a = true) := by
  refine ⟨?_, ?_, ?_, ?_⟩
  · exact (Position.le_iff a a).mpr (Or.inr ⟨rfl, le_refl _⟩)
  · intro h1 h2
    rw [Position.le_iff] at h1 h2
    rw [Position.eq_iff]
    omega
  · intro h1 h2
    rw [Position.le_iff] at h1 h2 ⊢
    omega
  · rw [Position.le_iff, Position.le_iff]
    omega

/-- Witness for C2 at the positions (1, 5), (1, 5) and (2, 0). -/
theorem Position.le_total_order_witness :
    (Position.make 1 5).le (Position.make 1 5) = true ∧
    (Position.make 1 5).eq (Position.make 1 5) = true ∧
    (Position.make 1 5).le (Position.make 2 0) = true := by
  have h := Position.le_total_order (Position.make 1 5) (Position.make 1 5) (Position.make 2 0)
  exact ⟨h.1, h.2.1 (by decide) (by decide), h.2.2.1 (by decide) (by decide)⟩

/-- C3: for every segment id and every segment offset that fits in 32 bits,
`Position(segmentId, segmentOffset)` returns exactly the values it was built from, and two such
positions are equal (`==`) iff their segment ids and their offsets are equal. -/
theorem Position.make_getters (segmentId segmentOffset segmentId2 segmentOffset2 : Nat)
    (hoff : segmentOffset < 2 ^ 32) (hoff2 : segmentOffset2 < 2 ^ 32) :
    (Position.make segmentId segmentOffset).getSegmentId = segmentId ∧
    (Position.make segmentId segmentOffset).getSegmentOffset = segmentOffset ∧
    ((Position.make segmentId segmentOffset).eq (Position.make segmentId2 segmentOffset2) = true ↔
      segmentId = segmentId2 ∧ segmentOffset = segmentOffset2) := by
  have h1 : downCast32 segmentOffset = segmentOffset := Nat.mod_eq_of_lt hoff
  have h2 : downCast32 segmentOffset2 = segmentOffset2 := Nat.mod_eq_of_lt hoff2
  refine ⟨rfl, h1, ?_⟩
  rw [Position.eq_iff]
  simp only [Position.getSegmentId, Position.getSegmentOffset, Position.make, h1, h2]

/-- Witness for C3 at `Position(7, 4294967295)` and `Position(7, 12)`. -/
theorem Position.make_getters_witness :
    (Position.make 7 4294967295).getSegmentId = 7 ∧
    (Position.make 7 4294967295).getSegmentOffset = 4294967295 ∧
    ((Position.make 7 4294967295).eq (Position.make 7 12) = true ↔
      7 = 7 ∧ 4294967295 = 12) :=
  Position.make_getters 7 4294967295 7 12 (by norm_num) (by norm_num)

/-- C4: the default-constructed position is the zero position: its segment id
and offset are 0, it equals `Position(0, 0)`, it is below or equal to every
position, and no position is strictly below it. -/
theorem Position.default_least (p : Position) :
    Position.default.getSegmentId = 0 ∧
    Position.default.getSegmentOffset = 0 ∧
    Position.default.eq (Position.make 0 0) = true ∧
    Position.default = Position.make 0 0 ∧
    Position.default.le p = true ∧
    p.lt Position.default = false := by
  refine ⟨rfl, rfl, by decide, by decide, ?_, ?_⟩
  · rw [Position.le_iff]
    simp only [Position.default, Position.getSegmentId, Position.getSegmentOffset]
    omega
  · have h := Position.lt_iff p Position.default
    simp only [Position.default, Position.getSegmentId, Position.getSegmentOffset] at h
    cases hlt : p.lt Position.default
    · rfl
    · rw [Position.default] at hlt
      have := h.mp hlt
      omega

/-! ## Theorems: the reference encoding -/

theorem pack_eq (slotBits offsetBits slot offset : Nat)
    (hs : slot < 2 ^ slotBits) (ho : offset < 2 ^ offsetBits) :
    ((slot <<< offsetBits) ||| offset) % 2 ^ (slotBits + offsetBits) =
      2 ^ offsetBits * slot + offset := by
  rw [Nat.shiftLeft_eq, Nat.mul_comm slot, ← Nat.mul_add_lt_is_or ho slot]
  apply Nat.mod_eq_of_lt
  have h1 : 2 ^ offsetBits * slot + offset < 2 ^ offsetBits * (slot + 1) := by
    rw [Nat.mul_add, Nat.mul_one]
    omega
  have h2 : 2 ^ offsetBits * (slot + 1) ≤ 2 ^ offsetBits * 2 ^ slotBits :=
    Nat.mul_le_mul_left _ hs
  rw [Nat.pow_add, Nat.mul_comm (2 ^ slotBits)]
  omega

theorem Log.referenceToSlot_buildReference (log : Log) (slot offset : Nat)
    (hs : slot < 2 ^ log.layout.slotBits) (ho : offset < 2 ^ log.layout.offsetBits) :
    log.referenceToSlot (log.buildReference slot offset) = slot := by
  unfold Log.referenceToSlot Log.buildReference
  rw [pack_eq _ _ _ _ hs ho, Nat.shiftRight_eq_div_pow,
    Nat.mul_add_div (Nat.two_pow_pos _), Nat.div_eq_of_lt ho, Nat.add_zero,
    Nat.mod_eq_of_lt hs]

theorem Log.referenceToOffset_buildReference (log : Log) (slot offset : Nat)
    (hs : slot < 2 ^ log.layout.slotBits) (ho : offset < 2 ^ log.layout.offsetBits) :
    log.referenceToOffset (log.buildReference slot offset) = offset := by
  unfold Log.referenceToOffset Log.buildReference
  rw [pack_eq _ _ _ _ hs ho, Nat.and_pow_two_sub_one_eq_mod, Nat.mul_add_mod,
    Nat.mod_eq_of_lt ho]

/-- C5: the reference encoding has an exact inverse: for a slot and an offset
within the widths of the packing, `referenceToSlot` and `referenceToOffset`
recover them from `buildReference(slot, offset)`; and the reference depends on
nothing but `(slot, offset)`: two logs with the same layout, whatever their
state, build the same reference. -/
theorem Log.reference_exact_inverse (log other : Log) (slot offset : Nat)
    (hs : slot < 2 ^ log.layout.slotBits) (ho : offset < 2 ^ log.layout.offsetBits)
    (hl : other.layout = log.layout) :
    log.referenceToSlot (log.buildReference slot offset) = slot ∧
    log.referenceToOffset (log.buildReference slot offset) = offset ∧
    other.buildReference slot offset = log.buildReference slot offset := by
  refine ⟨Log.referenceToSlot_buildReference log slot offset hs ho,
    Log.referenceToOffset_buildReference log slot offset hs ho, ?_⟩
  simp only [Log.buildReference, hl]

/-! ## Theorems: the log round trip -/

theorem SegmentManager.getSegment_some {sm : SegmentManager} {slot : Nat} {seg : LogSegment}
    (h : sm.getSegment slot = some seg) :
    slot < sm.slots.length ∧ some seg ∈ sm.slots := by
  unfold SegmentManager.getSegment at h
  cases hget : sm.slots[slot]? with
  | none => rw [hget] at h; simp at h
  | some o =>
    rw [hget] at h
    simp only [Option.join] at h
    subst h
    exact ⟨(List.getElem?_eq_some_iff.mp hget).1, List.getElem?_mem hget⟩

theorem SegmentManager.getSegment_setSegment (sm : SegmentManager) (slot : Nat)
    (seg : LogSegment) (h : slot < sm.slots.length) :
    (sm.setSegment slot seg).getSegment slot = some seg := by
  simp [SegmentManager.getSegment, SegmentManager.setSegment, List.getElem?_set_self h]

theorem SegmentManager.Fits_setSegment {sm : SegmentManager} {layout : RefLayout}
    (hf : sm.Fits layout) (slot : Nat) (seg : LogSegment)
    (hc : seg.capacity < 2 ^ layout.offsetBits) :
    (sm.setSegment slot seg).Fits layout := by
  obtain ⟨h1, h2, h3, h4⟩ := hf
  refine ⟨by simpa [SegmentManager.setSegment] using h1, h2, h3, ?_⟩
  intro s hs
  rcases List.mem_or_eq_of_mem_set hs with h | h
  · exact h4 s h
  · cases h
    exact hc

theorem SegmentManager.Fits_sealSlot {sm : SegmentManager} {layout : RefLayout}
    (hf : sm.Fits layout) (slot : Nat) : (sm.sealSlot slot).Fits layout := by
  unfold SegmentManager.sealSlot
  cases hget : sm.getSegment slot with
  | none => exact hf
  | some seg =>
    exact SegmentManager.Fits_setSegment hf slot _
      (hf.2.2.2 seg (SegmentManager.getSegment_some hget).2)

theorem firstFreeSlot_lt (l : List (Option LogSegment)) (i k : Nat)
    (h : firstFreeSlot l i = some k) : i ≤ k ∧ k < i + l.length := by
  induction l generalizing i with
  | nil => simp [firstFreeSlot] at h
  | cons a rest ih =>
    cases a with
    | none =>
      simp only [firstFreeSlot, Option.some.injEq] at h
      subst h
      simp
    | some seg =>
      simp only [firstFreeSlot] at h
      have := ih (i + 1) h
      simp only [List.length_cons]
      omega

theorem SegmentManager.openSegment_spec {sm sm' : SegmentManager} {layout : RefLayout}
    {slot : Nat} (hf : sm.Fits layout) (h : sm.openSegment = some (sm', slot)) :
    sm'.Fits layout ∧ sm'.getSegment slot =
      some ⟨sm.nextSegmentId, sm.segmentCapacity, 0, false, []⟩ := by
  obtain ⟨h1, h2, h3, h4⟩ := hf
  unfold SegmentManager.openSegment at h
  cases hfree : firstFreeSlot sm.slots 0 with
  | some k =>
    rw [hfree] at h
    simp only [Option.some.injEq, Prod.mk.injEq] at h
    obtain ⟨hsm, hk⟩ := h
    subst hsm hk
    have hlt := (firstFreeSlot_lt sm.slots 0 k hfree).2
    rw [Nat.zero_add] at hlt
    refine ⟨⟨by simpa using h1, h2, h3, ?_⟩, ?_⟩
    · intro s hs
      rcases List.mem_or_eq_of_mem_set hs with h | h
      · exact h4 s h
      · cases h
        exact h3
    · simp [SegmentManager.getSegment, List.getElem?_set_self hlt]
  | none =>
    rw [hfree] at h
    by_cases hlen : sm.slots.length < sm.maxSegments
    · simp only [hlen, if_true, Option.some.injEq, Prod.mk.injEq] at h
      obtain ⟨hsm, hk⟩ := h
      subst hsm hk
      refine ⟨⟨?_, h2, h3, ?_⟩, ?_⟩
      · simp only [List.length_append, List.length_singleton]
        omega
      · intro s hs
        rcases List.mem_append.mp hs with h | h
        · exact h4 s h
        · simp only [List.mem_singleton, Option.some.injEq] at h
          subst h
          exact h3
      · simp [SegmentManager.getSegment, List.getElem?_concat_length]
    · simp [hlen] at h

theorem Log.attemptWrite_spec {log log' : Log} {type : LogEntryType} {bytes : List Nat}
    {sync : Bool} {reference : Reference} (hf : log.LayoutFits)
    (h : log.attemptWrite type bytes sync = some (log', reference)) :
    log'.LayoutFits ∧ log'.getEntry reference = some (type, bytes) := by
  unfold Log.attemptWrite at h
  cases hget : log.segmentManager.getSegment log.head with
  | none => rw [hget] at h; simp at h
  | some seg =>
    rw [hget] at h
    obtain ⟨hlt, hmem⟩ := SegmentManager.getSegment_some hget
    have hcap : seg.capacity < 2 ^ log.layout.offsetBits := hf.2.2.2 seg hmem
    have hslot : log.head < 2 ^ log.layout.slotBits := Nat.lt_of_lt_of_le hlt hf.1
    simp only [LogSegment.append] at h
    by_cases hroom : seg.sealed = false ∧ seg.writeCursor + bytes.length ≤ seg.capacity
    · simp only [hroom, and_self, if_true, Option.some.injEq, Prod.mk.injEq] at h
      obtain ⟨hlog, href⟩ := h
      have hoff : seg.writeCursor < 2 ^ log.layout.offsetBits := by omega
      subst hlog href
      refine ⟨SegmentManager.Fits_setSegment hf _ _ hcap, ?_⟩
      have hs := Log.referenceToSlot_buildReference log log.head seg.writeCursor hslot hoff
      have ho := Log.referenceToOffset_buildReference log log.head seg.writeCursor hslot hoff
      simp only [Log.referenceToSlot, Log.referenceToOffset, Log.buildReference] at hs ho
      simp only [Log.getEntry, Log.referenceToSlot, Log.referenceToOffset, Log.buildReference,
        hs, ho, SegmentManager.getSegment_setSegment _ _ _ hlt, LogSegment.entryAt,
        List.find?_cons, beq_self_eq_true]
      simp
    · simp [hroom] at h

theorem Log.LayoutFits_init (layout : RefLayout) (segmentCapacity maxSegments : Nat)
    (hc : segmentCapacity < 2 ^ layout.offsetBits) (hm : maxSegments ≤ 2 ^ layout.slotBits) :
    (Log.init layout segmentCapacity maxSegments).LayoutFits := by
  refine ⟨?_, hm, hc, ?_⟩
  · exact Nat.one_le_two_pow
  · intro seg hseg
    simp only [Log.init, List.mem_singleton, Option.some.injEq] at hseg
    subst hseg
    exact hc

theorem Log.LayoutFits_append (log : Log) (type : LogEntryType) (bytes : List Nat)
    (sync : Bool) (hf : log.LayoutFits) : (log.append type bytes sync).1.LayoutFits := by
  unfold Log.append
  cases h1 : log.attemptWrite type bytes sync with
  | some res => exact (Log.attemptWrite_spec hf h1).1
  | none =>
    cases h2 : (log.segmentManager.sealSlot log.head).openSegment with
    | none => exact hf
    | some res =>
      obtain ⟨sm, slot⟩ := res
      have hfits : ({ log with segmentManager := sm, head := slot } : Log).LayoutFits :=
        (SegmentManager.openSegment_spec (SegmentManager.Fits_sealSlot hf log.head) h2).1
      cases h3 : ({ log with segmentManager := sm, head := slot } : Log).attemptWrite
          type bytes sync with
      | none =>
        simp only [h3]
        exact hfits
      | some res2 =>
        simp only [h3]
        exact (Log.attemptWrite_spec hfits h3).1

theorem Log.LayoutFits_free (log log' : Log) (reference : Reference) (hf : log.LayoutFits)
    (h : log.free reference = some log') : log'.LayoutFits := by
  unfold Log.free at h
  cases h1 : log.getEntry reference with
  | none => simp [h1] at h
  | some e =>
    cases h2 : log.segmentManager.getSegment (log.referenceToSlot reference) with
    | none => simp [h1, h2] at h
    | some seg =>
      simp only [h1, h2, Option.some.injEq] at h
      subst h
      exact SegmentManager.Fits_setSegment hf _ _
        (hf.2.2.2 seg (SegmentManager.getSegment_some h2).2)

theorem SegmentManager.sealSlot_fields (sm : SegmentManager) (slot : Nat) :
    (sm.sealSlot slot).slots.length = sm.slots.length ∧
    (sm.sealSlot slot).maxSegments = sm.maxSegments ∧
    (sm.sealSlot slot).segmentCapacity = sm.segmentCapacity := by
  unfold SegmentManager.sealSlot
  cases sm.getSegment slot <;> simp [SegmentManager.setSegment]

theorem SegmentManager.openSegment_succeeds (sm : SegmentManager)
    (hpool : sm.slots.length < sm.maxSegments) :
    ∃ sm' slot, sm.openSegment = some (sm', slot) ∧
      sm'.getSegment slot = some ⟨sm.nextSegmentId, sm.segmentCapacity, 0, false, []⟩ := by
  unfold SegmentManager.openSegment
  cases hfree : firstFreeSlot sm.slots 0 with
  | some k =>
    have hlt := (firstFreeSlot_lt sm.slots 0 k hfree).2
    rw [Nat.zero_add] at hlt
    exact ⟨_, _, rfl, by simp [SegmentManager.getSegment, List.getElem?_set_self hlt]⟩
  | none =>
    simp only [hpool, if_true]
    exact ⟨_, _, rfl, by simp [SegmentManager.getSegment, List.getElem?_concat_length]⟩

/-- An append of at most one segment's capacity succeeds while the segment pool
is not exhausted. -/
theorem Log.append_succeeds (log : Log) (type : LogEntryType) (bytes : List Nat) (sync : Bool)
    (hlen : bytes.length ≤ log.segmentManager.segmentCapacity)
    (hpool : log.segmentManager.slots.length < log.segmentManager.maxSegments) :
    ∃ reference, (log.append type bytes sync).2 = some reference := by
  unfold Log.append
  cases h1 : log.attemptWrite type bytes sync with
  | some res => exact ⟨res.2, rfl⟩
  | none =>
    obtain ⟨hl, hm, hc⟩ := SegmentManager.sealSlot_fields log.segmentManager log.head
    obtain ⟨sm, slot, hopen, hseg⟩ :=
      SegmentManager.openSegment_succeeds (log.segmentManager.sealSlot log.head)
        (by rw [hl, hm]; exact hpool)
    simp only [hopen]
    have hw : ∃ res, ({ log with segmentManager := sm, head := slot } : Log).attemptWrite
        type bytes sync = some res := by
      simp only [Log.attemptWrite, hseg, LogSegment.append, hc, Nat.zero_add, hlen, and_self,
        if_true]
      exact ⟨_, rfl⟩
    obtain ⟨res, hres⟩ := hw
    simp only [hres]
    exact ⟨res.2, rfl⟩

/-- C6: round trip of the log: a successful `append` of an entry followed by
`getEntry` on the returned reference yields exactly the appended type and
bytes, in every log whose reference layout holds its slots and offsets. -/
theorem Log.append_getEntry_roundtrip (log log' : Log) (type : LogEntryType)
    (bytes : List Nat) (sync : Bool) (reference : Reference) (hf : log.LayoutFits)
    (h : log.append type bytes sync = (log', some reference)) :
    log'.getEntry reference = some (type, bytes) := by
  unfold Log.append at h
  cases h1 : log.attemptWrite type bytes sync with
  | some res =>
    obtain ⟨l1, r1⟩ := res
    rw [h1] at h
    simp only [Prod.mk.injEq, Option.some.injEq] at h
    obtain ⟨hl, hr⟩ := h
    subst hl hr
    exact (Log.attemptWrite_spec hf h1).2
  | none =>
    rw [h1] at h
    cases h2 : (log.segmentManager.sealSlot log.head).openSegment with
    | none => rw [h2] at h; simp at h
    | some res =>
      obtain ⟨sm, slot⟩ := res
      rw [h2] at h
      have hfits : ({ log with segmentManager := sm, head := slot } : Log).LayoutFits :=
        (SegmentManager.openSegment_spec (SegmentManager.Fits_sealSlot hf log.head) h2).1
      cases h3 : ({ log with segmentManager := sm, head := slot } : Log).attemptWrite
          type bytes sync with
      | none => simp [h3] at h
      | some res2 =>
        obtain ⟨l2, r2⟩ := res2
        simp only [h3, Prod.mk.injEq, Option.some.injEq] at h
        obtain ⟨hl, hr⟩ := h
        subst hl hr
        exact (Log.attemptWrite_spec hfits h3).2

/-- Witness for C5 at slot 3 and offset 1000 of a layout of 8 slot bits and 24
offset bits. -/
theorem Log.reference_exact_inverse_witness :
    (Log.init ⟨8, 24⟩ 16 4).referenceToSlot
        ((Log.init ⟨8, 24⟩ 16 4).buildReference 3 1000) = 3 ∧
    (Log.init ⟨8, 24⟩ 16 4).referenceToOffset
        ((Log.init ⟨8, 24⟩ 16 4).buildReference 3 1000) = 1000 ∧
    ((Log.init ⟨8, 24⟩ 16 4).append 7 [1, 2] false).1.buildReference 3 1000 =
      (Log.init ⟨8, 24⟩ 16 4).buildReference 3 1000 :=
  Log.reference_exact_inverse (Log.init ⟨8, 24⟩ 16 4)
    ((Log.init ⟨8, 24⟩ 16 4).append 7 [1, 2] false).1 3 1000 (by decide) (by decide) rfl

/-- Witness for C6: in a log of segments of 4 bytes, a second append of 3 bytes
rolls the head over to slot 1 and reads back what it wrote. -/
theorem Log.append_getEntry_roundtrip_witness :
    ((Log.init ⟨8, 24⟩ 4 4).append 7 [1, 2, 3] false).1.LayoutFits ∧
    (((Log.init ⟨8, 24⟩ 4 4).append 7 [1, 2, 3] false).1.append 9 [4, 5, 6] true).2 =
      some 16777216 ∧
    (((Log.init ⟨8, 24⟩ 4 4).append 7 [1, 2, 3] false).1.append 9 [4, 5, 6] true).1.getEntry
      16777216 = some (9, [4, 5, 6]) :=
  have hf := Log.LayoutFits_append (Log.init ⟨8, 24⟩ 4 4) 7 [1, 2, 3] false
    (Log.LayoutFits_init ⟨8, 24⟩ 4 4 (by decide) (by decide))
  ⟨hf, rfl,
    Log.append_getEntry_roundtrip ((Log.init ⟨8, 24⟩ 4 4).append 7 [1, 2, 3] false).1
      (((Log.init ⟨8, 24⟩ 4 4).append 7 [1, 2, 3] false).1.append 9 [4, 5, 6] true).1
      9 [4, 5, 6] true 16777216 hf rfl⟩

/-! ## Theorems: the benchmark client -/

namespace Bench

/-- C7: the long option `--cpu` does not act as `-c`. The table `long_options`
maps `"cpu"` to the value `'a'`, so `--cpu 3` stores "3" in `address` and leaves
`cpu` at -1, where `-c 3` sets `cpu` to 3 and leaves `address` at its default. -/
theorem cmdline_long_cpu_sets_address (SVRPORT : Int) (SVRADDR : CString) :
    cmdline SVRPORT SVRADDR Globals.initial
        ["bench".toList, "--cpu".toList, "3".toList] =
      some { multirow := 0, randomReads := 0, pmcInsteadOfTSC := false, count := 10000,
             size := 100, address := "3".toList, port := SVRPORT, cpu := -1 } ∧
    cmdline SVRPORT SVRADDR Globals.initial
        ["bench".toList, "-c".toList, "3".toList] =
      some { multirow := 0, randomReads := 0, pmcInsteadOfTSC := false, count := 10000,
             size := 100, address := copyAddress SVRADDR, port := SVRPORT, cpu := 3 } :=
  ⟨rfl, rfl⟩

theorem cmdlineCase_spec {g g' : Globals} {r : GetoptResult}
    (h : cmdlineCase g r = some g') :
    g'.multirow = (if r.c = 'M' ∨ r.c = 'R' then 1 else g.multirow) ∧
    g'.randomReads = (if r.c = 'R' then 1 else g.randomReads) := by
  unfold cmdlineCase at h
  split at h
  all_goals first
    | (rename_i hc
       simp only [Option.some.injEq] at h
       subst h
       rw [hc]
       simp +decide)
    | (simp at h)

theorem cmdlineLoop_spec (opts : List GetoptResult) (g0 g : Globals)
    (h : cmdlineLoop g0 opts = some g) :
    g.multirow = (if ∃ r ∈ opts, r.c = 'M' ∨ r.c = 'R' then 1 else g0.multirow) ∧
    ((g0.randomReads ≠ 0 → g0.multirow = 1) → g.randomReads ≠ 0 → g.multirow = 1) := by
  induction opts generalizing g0 with
  | nil =>
    simp only [cmdlineLoop, Option.some.injEq] at h
    subst h
    simp
  | cons r rest ih =>
    simp only [cmdlineLoop] at h
    cases hc : cmdlineCase g0 r with
    | none => simp [hc] at h
    | some g1 =>
      rw [hc] at h
      obtain ⟨hm, hr⟩ := cmdlineCase_spec hc
      obtain ⟨ihm, ihr⟩ := ih g1 h
      refine ⟨?_, ?_⟩
      · rw [ihm, hm]
        by_cases h1 : r.c = 'M' ∨ r.c = 'R'
        · simp [h1]
        · by_cases h2 : ∃ r' ∈ rest, r'.c = 'M' ∨ r'.c = 'R'
          · simp [h2]
          · simp [h1, h2]
      · intro h0
        apply ihr
        rw [hm, hr]
        by_cases h1 : r.c = 'R'
        · simp [h1]
        · by_cases h2 : r.c = 'M'
          · simp [h2]
          · simpa [h1, h2] using h0

theorem length_bufContents (size : Nat) : (bufContents size).length = size := by
  simp [bufContents]

theorem makeBuf_fits {stack size : Nat} (h : size ≤ stack) :
    makeBuf stack size = some (bufContents size) := by
  simp [makeBuf, h]

theorem writeManyLoop_all_succeed (buf : List Nat) (g : Globals) (rc_write : Nat → Int)
    (perf : Nat → Nat) (n i serverCounter : Nat)
    (hok : ∀ j, i ≤ j → j < i + n → rc_write j = 0) :
    (writeManyLoop buf g rc_write perf n i serverCounter).calls =
        (List.range' i n).map (fun k => (⟨k, buf, g.size⟩ : WriteCall)) ∧
    (writeManyLoop buf g rc_write perf n i serverCounter).exited = false := by
  induction n generalizing i serverCounter with
  | zero => simp [writeManyLoop]
  | succ n ih =>
    have h0 : rc_write i = 0 := hok i (le_refl i) (by omega)
    have ih' := ih (i + 1) ((serverCounter + perf i) % 2 ^ 64)
      (fun j h1 h2 => hok j (by omega) (by omega))
    simp only [writeManyLoop, h0, ne_eq, not_true_eq_false, if_false, List.range'_succ,
      List.map_cons]
    exact ⟨by rw [ih'.1], ih'.2⟩

theorem writeManyLoop_not_exited (buf : List Nat) (g : Globals) (rc_write : Nat → Int)
    (perf : Nat → Nat) (n i serverCounter : Nat)
    (h : (writeManyLoop buf g rc_write perf n i serverCounter).exited = false) :
    (writeManyLoop buf g rc_write perf n i serverCounter).calls =
      (List.range' i n).map (fun k => (⟨k, buf, g.size⟩ : WriteCall)) := by
  induction n generalizing i serverCounter with
  | zero => simp [writeManyLoop]
  | succ n ih =>
    simp only [writeManyLoop] at h ⊢
    by_cases h0 : rc_write i = 0
    · simp only [h0, ne_eq, not_true_eq_false, if_false] at h ⊢
      rw [ih (i + 1) _ h]
      simp [List.range'_succ]
    · simp [h0] at h

theorem readManyLoop_keys (g : Globals) (rc_read : Nat → Int) (perf : Nat → Nat)
    (rand : Nat → Nat) (n i serverCounter : Nat) (hi : i + n ≤ g.count) :
    ∀ r ∈ (readManyLoop g rc_read perf rand n i serverCounter).calls,
      r.key < g.count ∧ (g.multirow = 0 → r.key = 0) := by
  induction n generalizing i serverCounter with
  | zero => simp [readManyLoop]
  | succ n ih =>
    have hpos : 0 < g.count := by omega
    have hkey : (if g.multirow ≠ 0 then (if g.randomReads ≠ 0 then rand i % g.count else i)
        else 0) < g.count ∧
        (g.multirow = 0 → (if g.multirow ≠ 0 then
          (if g.randomReads ≠ 0 then rand i % g.count else i) else 0) = 0) := by
      refine ⟨?_, fun hm => by simp [hm]⟩
      split
      · split
        · exact Nat.mod_lt _ hpos
        · omega
      · exact hpos
    intro r hr
    simp only [readManyLoop] at hr
    by_cases h0 : rc_read i = 0
    · simp only [h0, ne_eq, not_true_eq_false, if_false, List.mem_cons] at hr
      rcases hr with hr | hr
      · subst hr
        exact hkey
      · exact ih (i + 1) _ (by omega) r hr
    · simp only [h0, ne_eq, not_false_eq_true, if_true, List.mem_singleton] at hr
      subst hr
      exact hkey

theorem readMany_keys (stack : Nat) (g : Globals) (rc_read : Nat → Int) (perf : Nat → Nat)
    (rand : Nat → Nat) :
    ∀ r ∈ (readMany stack g rc_read perf rand).calls,
      r.key < g.count ∧ (g.multirow = 0 → r.key = 0) := by
  intro r hr
  unfold readMany at hr
  cases hb : makeBuf stack g.size with
  | none => simp [hb] at hr
  | some buf =>
    simp only [hb] at hr
    exact readManyLoop_keys g rc_read perf rand g.count 0 0 (by omega) r hr

/-- C8, as the code has it: when the buffer of `size` bytes fits in the stack
space left for it, then after `cmdline` multirow is on exactly when `-M` or `-R`
was given; the write phase issues, when every write succeeds, exactly `count`
writes, to the keys 0, 1, ..., count-1 in increasing order, each of `size`
bytes; with multirow off it issues exactly one write, to key 0, of `size` bytes,
whatever `count` is. With no options, `count` is 10000, `size` is 100 and
multirow is off. -/
theorem writePhase_writes_documented_objects (SVRPORT : Int) (SVRADDR : CString)
    (g0 g : Globals) (argv : List CString) (stack : Nat) (rc_write : Nat → Int)
    (perf : Nat → Nat)
    (h : cmdline SVRPORT SVRADDR g0 argv = some g) (hfit : g.size ≤ stack) :
    (g.multirow ≠ 0 ↔
      ∃ r ∈ getoptAll optstring long_options (argv.drop 1), r.c = 'M' ∨ r.c = 'R') ∧
    (g.multirow ≠ 0 → (∀ i, i < g.count → rc_write i = 0) →
      (writePhase stack g rc_write perf).calls =
        (List.range g.count).map
          (fun k => (⟨k, bufContents g.size, g.size⟩ : WriteCall))) ∧
    (g.multirow = 0 →
      (writePhase stack g rc_write perf).calls = [⟨0, bufContents g.size, g.size⟩]) ∧
    (bufContents g.size).length = g.size ∧
    (getoptAll optstring long_options (argv.drop 1) = [] →
      g.count = 10000 ∧ g.size = 100 ∧ g.multirow = 0) ∧
    (∀ prog : CString, cmdline SVRPORT SVRADDR g0 [prog] =
      some { g0 with count := 10000, size := 100, multirow := 0, port := SVRPORT,
                     address := copyAddress SVRADDR }) := by
  unfold cmdline at h
  have hm := (cmdlineLoop_spec _ _ _ h).1
  have hbuf := makeBuf_fits hfit
  refine ⟨?_, ?_, ?_, length_bufContents g.size, ?_, fun _ => rfl⟩
  · by_cases hex : ∃ r ∈ getoptAll optstring long_options (argv.drop 1), r.c = 'M' ∨ r.c = 'R'
    · rw [if_pos hex] at hm
      exact ⟨fun _ => hex, fun _ => by omega⟩
    · rw [if_neg hex] at hm
      exact ⟨fun hne => absurd hm hne, fun hex' => absurd hex' hex⟩
  · intro hmulti hok
    have hloop := (writeManyLoop_all_succeed (bufContents g.size) g rc_write perf g.count 0 0
      (fun j _ h2 => hok j (by omega))).1
    simp only [writePhase, hmulti, ne_eq, not_false_eq_true, if_true, writeMany, hbuf, hloop,
      List.range_eq_range']
  · intro hmulti
    simp only [writePhase, hmulti, ne_eq, not_true_eq_false, if_false, writeOne, hbuf]
    split <;> rfl
  · intro hnone
    rw [hnone] at h
    simp only [cmdlineLoop, Option.some.injEq] at h
    subst h
    exact ⟨rfl, rfl, rfl⟩

/-- Witness for C8: `bench -R -n 3 -s 2` with every write succeeding and 8 MiB of
stack. -/
theorem writePhase_writes_documented_objects_witness :
    cmdline 11111 [] Globals.initial
        ["bench".toList, "-R".toList, "-n".toList, "3".toList, "-s".toList, "2".toList] =
      some { multirow := 1, randomReads := 1, pmcInsteadOfTSC := false, count := 3, size := 2,
             address := [], port := 11111, cpu := -1 } ∧
    (2 : Nat) ≤ 8388608 ∧
    (writePhase 8388608 { multirow := 1, randomReads := 1, pmcInsteadOfTSC := false,
                          count := 3, size := 2, address := [], port := 11111, cpu := -1 }
        (fun _ => 0) (fun _ => 0)).calls =
      [⟨0, [255, 0], 2⟩, ⟨1, [255, 0], 2⟩, ⟨2, [255, 0], 2⟩] :=
  ⟨rfl, by decide,
    (writePhase_writes_documented_objects 11111 [] Globals.initial _
      ["bench".toList, "-R".toList, "-n".toList, "3".toList, "-s".toList, "2".toList]
      8388608 (fun _ => 0) (fun _ => 0) rfl (by decide)).2.1 (by decide) (fun _ _ => rfl)⟩

/-- C8 as stated fails: with 8 MiB of stack, `bench -s 9000000` is accepted by
`cmdline` with multirow off, yet the write phase issues no write at all (the
process dies filling `buf`), and `bench -M -n 3 -s 9000000`, with multirow on
and no write failing, issues none of its 3 writes. -/
theorem writePhase_large_size_issues_no_write :
    cmdline 11111 [] Globals.initial ["bench".toList, "-s".toList, "9000000".toList] =
      some { multirow := 0, randomReads := 0, pmcInsteadOfTSC := false, count := 10000,
             size := 9000000, address := [], port := 11111, cpu := -1 } ∧
    (writePhase 8388608 { multirow := 0, randomReads := 0, pmcInsteadOfTSC := false,
                          count := 10000, size := 9000000, address := [], port := 11111,
                          cpu := -1 }
        (fun _ => 0) (fun _ => 0)).calls = [] ∧
    cmdline 11111 [] Globals.initial
        ["bench".toList, "-M".toList, "-n".toList, "3".toList, "-s".toList,
          "9000000".toList] =
      some { multirow := 1, randomReads := 0, pmcInsteadOfTSC := false, count := 3,
             size := 9000000, address := [], port := 11111, cpu := -1 } ∧
    (writePhase 8388608 { multirow := 1, randomReads := 0, pmcInsteadOfTSC := false,
                          count := 3, size := 9000000, address := [], port := 11111,
                          cpu := -1 }
        (fun _ => 0) (fun _ => 0)).calls = [] :=
  ⟨by decide, by decide, by decide, by decide⟩

/-- C9: every key `readMany` reads was written by the write phase of `main`.
After `cmdline`, `randomReads = 1` implies `multirow = 1`; with multirow on every
read uses a key below `count`, with multirow off every read uses key 0; and in a
run of `main` every key read is the key of a write the run issued before. -/
theorem reads_use_written_keys (SVRPORT : Int) (SVRADDR : CString) (argv : List CString)
    (stack : Nat) (setup : Globals → Bool) (rc_write rc_read : Nat → Int)
    (perf : Nat → Nat) (rand : Nat → Nat) :
    (∀ g, cmdline SVRPORT SVRADDR Globals.initial argv = some g →
      (g.randomReads = 1 → g.multirow = 1) ∧
      (g.multirow ≠ 0 →
        ∀ r ∈ (readMany stack g rc_read perf rand).calls, r.key < g.count) ∧
      (g.multirow = 0 →
        ∀ r ∈ (readMany stack g rc_read perf rand).calls, r.key = 0)) ∧
    (∀ r ∈ (main SVRPORT SVRADDR argv stack setup rc_write rc_read perf rand).reads,
      ∃ w ∈ (main SVRPORT SVRADDR argv stack setup rc_write rc_read perf rand).writes,
        w.key = r.key) := by
  have hkeys := fun g : Globals => readMany_keys stack g rc_read perf rand
  refine ⟨?_, ?_⟩
  · intro g h
    unfold cmdline at h
    have hr := (cmdlineLoop_spec _ _ _ h).2 (fun h0 => absurd rfl h0)
    refine ⟨fun h1 => hr (by omega), fun _ r hmem => (hkeys g r hmem).1,
      fun hm r hmem => (hkeys g r hmem).2 hm⟩
  · intro r hr
    unfold main at hr ⊢
    cases hc : cmdline SVRPORT SVRADDR Globals.initial argv with
    | none => simp [hc] at hr
    | some g =>
      simp only [hc] at hr ⊢
      by_cases hs : setup g = true
      · simp only [hs, if_true] at hr ⊢
        cases hx : (writePhase stack g rc_write perf).exited with
        | true => simp [hx] at hr
        | false =>
          simp only [hx, Bool.false_eq_true, if_false] at hr ⊢
          obtain ⟨hlt, hzero⟩ := hkeys g r hr
          cases hb : makeBuf stack g.size with
          | none =>
            by_cases hm : g.multirow = 0
            · simp [writePhase, hm, writeOne, hb] at hx
            · simp [writePhase, hm, writeMany, hb] at hx
          | some buf =>
            by_cases hm : g.multirow = 0
            · refine ⟨⟨0, buf, g.size⟩, ?_, (hzero hm).symm⟩
              simp only [writePhase, hm, ne_eq, not_true_eq_false, if_false, writeOne, hb]
              split <;> simp
            · have hx' : (writeManyLoop buf g rc_write perf g.count 0 0).exited = false := by
                simpa [writePhase, hm, writeMany, hb] using hx
              refine ⟨⟨r.key, buf, g.size⟩, ?_, rfl⟩
              simp only [writePhase, hm, ne_eq, not_false_eq_true, if_true, writeMany, hb,
                writeManyLoop_not_exited buf g rc_write perf g.count 0 0 hx', List.mem_map,
                List.mem_range']
              exact ⟨r.key, ⟨r.key, by omega, by omega⟩, rfl⟩
      · simp [hs] at hr

/-- Witness for C9: `bench -R -n 3` with `rand()` returning 5, 12, 19 reads the
keys 2, 0, 1, each written before. -/
theorem reads_use_written_keys_witness :
    (main 11111 [] ["bench".toList, "-R".toList, "-n".toList, "3".toList] 8388608
        (fun _ => true) (fun _ => 0) (fun _ => 0) (fun _ => 0) (fun i => 7 * i + 5)).reads =
      [⟨2⟩, ⟨0⟩, ⟨1⟩] ∧
    ∃ w ∈ (main 11111 [] ["bench".toList, "-R".toList, "-n".toList, "3".toList] 8388608
        (fun _ => true) (fun _ => 0) (fun _ => 0) (fun _ => 0) (fun i => 7 * i + 5)).writes,
      w.key = 2 :=
  ⟨by decide,
    (reads_use_written_keys 11111 [] ["bench".toList, "-R".toList, "-n".toList, "3".toList]
      8388608 (fun _ => true) (fun _ => 0) (fun _ => 0) (fun _ => 0)
      (fun i => 7 * i + 5)).2 ⟨2⟩ (by decide)⟩

end Bench

end RAMCloud
